import Mathlib

/-!
Shallow embedding of `src/health_check.py` (fetch-availability-monitoring).

The program periodically probes HTTP endpoints grouped by URL host,
classifies each endpoint Up/Down, computes the per-domain fraction of Up
endpoints per cycle, and maintains a cumulative running average per domain.

Modelling decisions:
* The network is an oracle `net : RequestParameters → ProbeOutcome`
  standing in for the `aiohttp` session: for each request it yields either
  an HTTP response status, a timeout, or some other transport exception.
* `urlparse(...).netloc` from the Python standard library is an oracle
  `netloc : String → String`.
* Python dicts are association lists `List (String × _)` preserving
  insertion order, exactly as Python 3.7+ dicts do; `defaultdict(list)`
  appending and plain-dict assignment/lookup are modelled explicitly.
* Float arithmetic is modelled by exact rational arithmetic `ℚ`.
* `logging.error` side effects are modelled as returned `Option String`
  log messages; `sys.exit(1)` becomes an explicit result constructor.
-/

set_option autoImplicit false

namespace HealthCheck

/-- REFRESH_PERIOD = 15 (seconds), from line 17 of the source. -/
def REFRESH_PERIOD : ℚ := 15

/-- Outcome of performing one HTTP request against an endpoint: a response
with a status code, a timeout (`TimeoutError`), or any other exception
carrying its detail string. -/
inductive ProbeOutcome where
  | response (status : ℕ)
  | timeout
  | exn (detail : String)
deriving DecidableEq

/-- The `request_parameters` dict built in `parse_config`:
url, method (default "GET"), headers (default None), data (default None). -/
structure RequestParameters where
  url : String
  method : String
  headers : Option (List (String × String))
  data : Option String
deriving DecidableEq

/-- One monitored endpoint as stored in the config structure:
`{"name": ..., "request_parameters": {...}}`. -/
structure Endpoint where
  name : String
  request_parameters : RequestParameters
deriving DecidableEq

/-- The network oracle: what the HTTP request with the given parameters
results in during the current cycle. -/
def Network : Type := RequestParameters → ProbeOutcome

/-- Embedding of `check_endpoint_status` (lines 79-99).  Returns the
Up/Down boolean together with the log message emitted, if any:
a `2xx` response is Up; any other status is Down; `TimeoutError` is Down
with no logging; any other exception is Down and logged with the
endpoint's URL and the error detail. -/
def check_endpoint_status (net : Network) (endpoint : RequestParameters) :
    Bool × Option String :=
  match net endpoint with
  | ProbeOutcome.response s => (decide (200 ≤ s ∧ s < 300), none)
  | ProbeOutcome.timeout => (false, none)
  | ProbeOutcome.exn e =>
      (false, some ("Encountered problem fetching " ++ endpoint.url ++ ": " ++ e))

/-- Python's `sum` over a list of booleans (True counts as 1). -/
def bool_sum : List Bool → ℕ
  | [] => 0
  | b :: bs => (if b then 1 else 0) + bool_sum bs

/-- The list `endpoints_status` computed in `get_domain_availability`
(lines 114-118): the Up/Down status of every endpoint of the domain. -/
def endpoints_status (net : Network) (endpoints : List Endpoint) : List Bool :=
  endpoints.map (fun endpoint => (check_endpoint_status net endpoint.request_parameters).1)

/-- Embedding of `get_domain_availability` (lines 102-119):
`sum(endpoints_status) / len(endpoints_status)`. -/
def get_domain_availability (net : Network) (endpoints : List Endpoint) : ℚ :=
  (bool_sum (endpoints_status net endpoints) : ℚ) /
    ((endpoints_status net endpoints).length : ℚ)

/-- The running-average update applied inline in
`update_domains_availability` (lines 142-145):
`(previous_average * (monitoring_cycle - 1) + availability_pct) / monitoring_cycle`. -/
def tracker_update (previous_average : ℚ) (monitoring_cycle : ℕ)
    (availability_pct : ℚ) : ℚ :=
  (previous_average * ((monitoring_cycle : ℚ) - 1) + availability_pct) /
    (monitoring_cycle : ℚ)

/-- Applying the tracker update once per cycle, starting at cycle number `c`
with stored value `prev`, for each fraction in the list in turn. -/
def run_tracker_from (prev : ℚ) (c : ℕ) : List ℚ → ℚ
  | [] => prev
  | f :: fs => run_tracker_from (tracker_update prev c f) (c + 1) fs

/-- The stored average after feeding the fractions `fs` as cycles `1..N`
to a domain whose seed value is `seed` (the seed is `0` in `main`,
line 162, but the claims quantify over it). -/
def run_tracker (seed : ℚ) (fs : List ℚ) : ℚ :=
  run_tracker_from seed 1 fs

/-- One raw YAML configuration entry as decoded by `yaml.safe_load`: an
arbitrary mapping, so every field the code accesses is optional here;
a `none` models a missing key. -/
structure RawEntry where
  url : Option String
  name : Option String
  method : Option String
  headers : Option (List (String × String))
  body : Option String
deriving DecidableEq

/-- The endpoint dictionary built for one entry in `parse_config`
(lines 64-74), given the entry's present `url` and `name` values:
`method` defaults to "GET", `headers` to None, `data` is the `body` field. -/
def entry_endpoint (u n : String) (e : RawEntry) : Endpoint :=
  ⟨n, ⟨u, e.method.getD "GET", e.headers, e.body⟩⟩

/-- `defaultdict(list)` append: `monitored_domains[domain].append(x)`.
If the key is present, the value is appended to its (first) list;
otherwise a new key with a singleton list is inserted at the end,
matching Python dict insertion order. -/
def dd_append (m : List (String × List Endpoint)) (k : String) (v : Endpoint) :
    List (String × List Endpoint) :=
  match m with
  | [] => [(k, [v])]
  | (k', vs) :: rest =>
      if k' = k then (k', vs ++ [v]) :: rest else (k', vs) :: dd_append rest k v

/-- The loop of `parse_config` (lines 62-74), processing the remaining
entries given the accumulated `monitored_domains` map.  Reading a missing
`url` or `name` key raises `KeyError`, modelled as `Except.error`;
`entry["url"]` is read first (line 63), then `entry["name"]` (line 66). -/
def parse_config_from (netloc : String → String)
    (acc : List (String × List Endpoint)) :
    List RawEntry → Except String (List (String × List Endpoint))
  | [] => Except.ok acc
  | e :: rest =>
      match e.url with
      | none => Except.error "KeyError: url"
      | some u =>
          match e.name with
          | none => Except.error "KeyError: name"
          | some n =>
              parse_config_from netloc (dd_append acc (netloc u) (entry_endpoint u n e)) rest

/-- Embedding of `parse_config` (lines 31-76): group the entries by the
host (`urlparse(entry["url"]).netloc`) of their URL into an
insertion-ordered map from domain to endpoint list. -/
def parse_config (netloc : String → String) (entries : List RawEntry) :
    Except String (List (String × List Endpoint)) :=
  parse_config_from netloc [] entries

/-- Result of `load_config`: either the parsed map, or `sys.exit(code)`
after emitting the given error log line. -/
inductive LoadResult where
  | ok (monitored_domains : List (String × List Endpoint))
  | exit (code : ℕ) (log : String)
deriving DecidableEq

/-- Embedding of `load_config` (lines 21-28): any exception raised while
reading or parsing the config is logged as `Failed to load config: ...`
and the process exits with status 1.  File reading and YAML decoding are
external; the decoded entry list is the input. -/
def load_config (netloc : String → String) (entries : List RawEntry) : LoadResult :=
  match parse_config netloc entries with
  | Except.ok m => LoadResult.ok m
  | Except.error e => LoadResult.exit 1 ("Failed to load config: " ++ e)

/-- Result of the startup part of `main` (lines 159-163): either the
monitoring state just before the loop is entered (the monitored domains,
the zero-seeded averages map, and `monitoring_cycle = 0`), or an exit. -/
inductive StartupResult where
  | run (monitored_domains : List (String × List Endpoint))
      (domain_availability_averages : List (String × ℚ)) (monitoring_cycle : ℕ)
  | exit (code : ℕ) (log : String)
deriving DecidableEq

/-- Startup of `main` (lines 159-163): load the config, seed
`domain_availability_averages = {domain: 0 for domain in monitored_domains}`
and set `monitoring_cycle = 0`; a config failure exits before the loop. -/
def main_startup (netloc : String → String) (entries : List RawEntry) : StartupResult :=
  match load_config netloc entries with
  | LoadResult.exit c l => StartupResult.exit c l
  | LoadResult.ok m =>
      StartupResult.run m (m.map (fun p => (p.1, (0 : ℚ)))) 0

/-- Python dict read `m[k]` on the grouped-endpoints map: the value at the
first matching key, or `[]` when absent (`defaultdict(list)` default). -/
def dict_find (m : List (String × List Endpoint)) (k : String) : List Endpoint :=
  match m with
  | [] => []
  | (k', vs) :: rest => if k' = k then vs else dict_find rest k

/-- Python dict read `m[k]` on the averages map; `none` models `KeyError`. -/
def dict_get (m : List (String × ℚ)) (k : String) : Option ℚ :=
  match m with
  | [] => none
  | (k', v) :: rest => if k' = k then some v else dict_get rest k

/-- Python dict assignment `m[k] = v` on the averages map: overwrite the
first matching key in place, or insert at the end when absent. -/
def dict_assign (m : List (String × ℚ)) (k : String) (v : ℚ) : List (String × ℚ) :=
  match m with
  | [] => [(k, v)]
  | (k', v') :: rest =>
      if k' = k then (k, v) :: rest else (k', v') :: dict_assign rest k v

/-- The `for domain, availability_pct in zip(...)` loop of
`update_domains_availability` (lines 141-145): for each pair, read the
previous average (a `KeyError` is `none`), apply the update rule, and
assign the result back. -/
def apply_updates (monitoring_cycle : ℕ) :
    List (String × ℚ) → List (String × ℚ) → Option (List (String × ℚ))
  | avgs, [] => some avgs
  | avgs, (domain, availability_pct) :: rest =>
      match dict_get avgs domain with
      | none => none
      | some prev =>
          apply_updates monitoring_cycle
            (dict_assign avgs domain (tracker_update prev monitoring_cycle availability_pct))
            rest

/-- Embedding of `update_domains_availability` (lines 122-145): gather the
availability fraction of every monitored domain, then fold the running
average update over `zip(monitored_domains.keys(), results)`. -/
def update_domains_availability (net : Network)
    (domain_availability_averages : List (String × ℚ)) (monitoring_cycle : ℕ)
    (monitored_domains : List (String × List Endpoint)) : Option (List (String × ℚ)) :=
  let results := monitored_domains.map (fun p => get_domain_availability net p.2)
  apply_updates monitoring_cycle domain_availability_averages
    ((monitored_domains.map Prod.fst).zip results)

/-- One iteration of the `while True` loop of `main` (lines 165-185):
increment `monitoring_cycle`, update the averages, and sleep for
`max(0.0, REFRESH_PERIOD - elapsed_time)`.  The wall-clock `elapsed_time`
measured by `time.monotonic()` is an oracle input; the returned triple is
the new averages map, the new cycle counter, and the sleep duration. -/
def main_cycle (net : Network) (monitored_domains : List (String × List Endpoint))
    (domain_availability_averages : List (String × ℚ)) (monitoring_cycle : ℕ)
    (elapsed_time : ℚ) : Option (List (String × ℚ) × ℕ × ℚ) :=
  match update_domains_availability net domain_availability_averages
      (monitoring_cycle + 1) monitored_domains with
  | none => none
  | some avgs =>
      some (avgs, monitoring_cycle + 1, max 0 (REFRESH_PERIOD - elapsed_time))

/-- The hosts of the entries that carry a `url`, in entry order.
Stated from the spec's words for the grouping claim (refinement side). -/
def entry_hosts_spec (netloc : String → String) (entries : List RawEntry) : List String :=
  entries.filterMap (fun e => e.url.map netloc)

/-- First-seen order: the hosts with later duplicates (and hosts already
seen) removed.  Stated from the spec's words for the grouping claim. -/
def first_seen_hosts_spec (seen : List String) : List String → List String
  | [] => []
  | h :: hs =>
      if h ∈ seen then first_seen_hosts_spec seen hs
      else h :: first_seen_hosts_spec (h :: seen) hs

/-- The endpoints a domain should receive according to the spec: the
well-formed entries whose URL host is `d`, in configuration order.
Stated from the spec's words for the grouping claim (refinement side). -/
def grouped_endpoints_spec (netloc : String → String) (entries : List RawEntry)
    (d : String) : List Endpoint :=
  entries.filterMap (fun e =>
    match e.url, e.name with
    | some u, some n => if netloc u = d then some (entry_endpoint u n e) else none
    | _, _ => none)

end HealthCheck

namespace HealthCheck

/-- C3: for every HTTP response, the endpoint is classified Up iff the
status code `s` satisfies `200 ≤ s < 300`; in particular 204 is Up while
301, 404 and 500 are Down. -/
theorem claim_C3_status_classification (net : Network) (ep : RequestParameters)
    (s : ℕ) (h : net ep = ProbeOutcome.response s) :
    ((check_endpoint_status net ep).1 = true ↔ (200 ≤ s ∧ s < 300)) := by
  unfold check_endpoint_status
  rw [h]
  simp

/-- Witness for C3 at concrete inputs: status 204 classifies Up and
statuses 301, 404, 500 classify Down. -/
theorem claim_C3_status_classification_witness :
    ((fun _ => ProbeOutcome.response 204 : Network) ⟨"http://example.com/", "GET", none, none⟩ =
        ProbeOutcome.response 204) ∧
    (check_endpoint_status (fun _ => ProbeOutcome.response 204)
        ⟨"http://example.com/", "GET", none, none⟩).1 = true ∧
    (check_endpoint_status (fun _ => ProbeOutcome.response 301)
        ⟨"http://example.com/", "GET", none, none⟩).1 = false ∧
    (check_endpoint_status (fun _ => ProbeOutcome.response 404)
        ⟨"http://example.com/", "GET", none, none⟩).1 = false ∧
    (check_endpoint_status (fun _ => ProbeOutcome.response 500)
        ⟨"http://example.com/", "GET", none, none⟩).1 = false := by
  refine ⟨rfl, ?_, by decide, by decide, by decide⟩
  exact (claim_C3_status_classification (fun _ => ProbeOutcome.response 204)
    ⟨"http://example.com/", "GET", none, none⟩ 204 rfl).2 (by decide)

/-- C4: the probe always returns an Up/Down boolean (it is a total
function of the probe outcome); a timeout is classified Down with no log
entry; any other exception is classified Down and logged with the
endpoint's URL and the error detail. -/
theorem claim_C4_probe_never_raises (net : Network) (ep : RequestParameters) :
    ((check_endpoint_status net ep).1 = true ∨ (check_endpoint_status net ep).1 = false) ∧
    (net ep = ProbeOutcome.timeout → check_endpoint_status net ep = (false, none)) ∧
    (∀ e, net ep = ProbeOutcome.exn e →
      check_endpoint_status net ep =
        (false, some ("Encountered problem fetching " ++ ep.url ++ ": " ++ e))) := by
  refine ⟨Bool.eq_false_or_eq_true ((check_endpoint_status net ep).1), ?_, ?_⟩
  · intro h; unfold check_endpoint_status; rw [h]
  · intro e h; unfold check_endpoint_status; rw [h]

/-- Witness for C4 at concrete inputs: a timeout yields Down with no log;
a DNS-style exception yields Down with the URL and detail in the log. -/
theorem claim_C4_probe_never_raises_witness :
    (((fun _ => ProbeOutcome.timeout : Network) ⟨"http://a.com/", "GET", none, none⟩ =
        ProbeOutcome.timeout) →
      check_endpoint_status (fun _ => ProbeOutcome.timeout)
        ⟨"http://a.com/", "GET", none, none⟩ = (false, none)) ∧
    (((fun _ => ProbeOutcome.exn "dns failure" : Network) ⟨"http://a.com/", "GET", none, none⟩ =
        ProbeOutcome.exn "dns failure") →
      check_endpoint_status (fun _ => ProbeOutcome.exn "dns failure")
        ⟨"http://a.com/", "GET", none, none⟩ =
        (false, some ("Encountered problem fetching " ++ "http://a.com/" ++ ": " ++ "dns failure"))) :=
  ⟨fun h => (claim_C4_probe_never_raises (fun _ => ProbeOutcome.timeout)
      ⟨"http://a.com/", "GET", none, none⟩).2.1 h,
   fun h => (claim_C4_probe_never_raises (fun _ => ProbeOutcome.exn "dns failure")
      ⟨"http://a.com/", "GET", none, none⟩).2.2 "dns failure" h⟩

theorem run_tracker_from_eq (fs : List ℚ) : ∀ (prev : ℚ) (c : ℕ), 2 ≤ c →
    run_tracker_from prev c fs =
      (((c : ℚ) - 1) * prev + fs.sum) / (((c : ℚ) - 1) + (fs.length : ℚ)) := by
  induction fs with
  | nil =>
    intro prev c hc
    have hcQ : (2 : ℚ) ≤ (c : ℚ) := by exact_mod_cast hc
    have hc1 : (c : ℚ) - 1 ≠ 0 := by linarith
    rw [run_tracker_from, List.sum_nil, List.length_nil]
    push_cast
    field_simp
  | cons f fs ih =>
    intro prev c hc
    have hc' : 2 ≤ c + 1 := le_trans hc (Nat.le_succ c)
    have hcQ : (2 : ℚ) ≤ (c : ℚ) := by exact_mod_cast hc
    have hc0 : (c : ℚ) ≠ 0 := by linarith
    have hlen : (0 : ℚ) ≤ (fs.length : ℚ) := by positivity
    have hden : (c : ℚ) + (fs.length : ℚ) ≠ 0 := by linarith
    rw [run_tracker_from, ih (tracker_update prev c f) (c + 1) hc',
      tracker_update, List.sum_cons, List.length_cons]
    push_cast
    have e1 : ((c : ℚ) + 1 - 1) = (c : ℚ) := by ring
    have e2 : ((c : ℚ) - 1 + ((fs.length : ℚ) + 1)) = (c : ℚ) + (fs.length : ℚ) := by ring
    rw [e1, e2]
    congr 1
    field_simp
    ring

theorem run_tracker_mean (seed : ℚ) (fs : List ℚ) (hne : fs ≠ []) :
    run_tracker seed fs = fs.sum / (fs.length : ℚ) := by
  match fs with
  | [] => exact absurd rfl hne
  | g :: gs =>
    rw [run_tracker, run_tracker_from,
      run_tracker_from_eq gs (tracker_update seed 1 g) 2 (le_refl 2),
      tracker_update, List.sum_cons, List.length_cons]
    push_cast
    norm_num
    rw [add_comm (1 : ℚ) (gs.length : ℚ)]

/-- C1: feeding fractions as cycles 1..N through the tracker update rule
yields the arithmetic mean of the fractions, and the first update
(cycle 1) returns the fraction exactly, regardless of the seed. -/
theorem claim_C1_running_average_is_mean (seed : ℚ) (fs : List ℚ) (f : ℚ) :
    (fs ≠ [] → run_tracker seed fs = fs.sum / (fs.length : ℚ)) ∧
    tracker_update seed 1 f = f := by
  constructor
  · exact run_tracker_mean seed fs
  · rw [tracker_update]
    norm_num

/-- Witness for C1 at concrete inputs: fractions 1/2 then 1 average to
3/4, and a first update from seed 7 yields the fraction 1/2 exactly. -/
theorem claim_C1_running_average_is_mean_witness :
    ([(1 : ℚ)/2, 1] ≠ ([] : List ℚ)) ∧
    run_tracker 0 [(1 : ℚ)/2, 1] = ([(1 : ℚ)/2, 1].sum / (([(1 : ℚ)/2, 1].length : ℕ) : ℚ)) ∧
    tracker_update 7 1 ((1 : ℚ)/2) = (1 : ℚ)/2 :=
  ⟨by decide,
   (claim_C1_running_average_is_mean 0 [(1 : ℚ)/2, 1] ((1 : ℚ)/2)).1 (by decide),
   (claim_C1_running_average_is_mean 7 [] ((1 : ℚ)/2)).2⟩

/-- C5: the tracker update rule is a true arithmetic mean over the full
history, so the final average is invariant under any reordering of the
values fed at each step count. -/
theorem claim_C5_mean_commutative (seed : ℚ) (fs gs : List ℚ)
    (hperm : fs.Perm gs) (hne : fs ≠ []) :
    run_tracker seed fs = fs.sum / (fs.length : ℚ) ∧
    run_tracker seed gs = run_tracker seed fs := by
  have hgne : gs ≠ [] := by
    intro h
    exact hne (List.eq_nil_of_length_eq_zero (by rw [hperm.length_eq, h, List.length_nil]))
  refine ⟨run_tracker_mean seed fs hne, ?_⟩
  rw [run_tracker_mean seed fs hne, run_tracker_mean seed gs hgne,
    hperm.sum_eq, hperm.length_eq]

/-- Witness for C5 at concrete inputs: [1/2, 1] and its reordering [1, 1/2]
both average to 3/4. -/
theorem claim_C5_mean_commutative_witness :
    run_tracker 0 [(1 : ℚ)/2, 1] = ([(1 : ℚ)/2, 1].sum / (([(1 : ℚ)/2, 1].length : ℕ) : ℚ)) ∧
    run_tracker 0 [1, (1 : ℚ)/2] = run_tracker 0 [(1 : ℚ)/2, 1] :=
  claim_C5_mean_commutative 0 [(1 : ℚ)/2, 1] [1, (1 : ℚ)/2]
    (List.Perm.swap 1 ((1 : ℚ)/2) []) (by decide)

theorem bool_sum_eq_count (bs : List Bool) : bool_sum bs = bs.count true := by
  induction bs with
  | nil => rfl
  | cons b bs ih =>
    rw [bool_sum, ih, List.count_cons]
    cases b <;> simp [Nat.add_comm]

/-- C2: for a domain with `n ≥ 1` endpoints of which exactly `k` probe Up,
the availability fraction equals `k / n` exactly. -/
theorem claim_C2_availability_is_up_fraction (net : Network)
    (endpoints : List Endpoint) (k n : ℕ) (_hne : endpoints ≠ [])
    (hk : k = (endpoints_status net endpoints).count true)
    (hn : n = endpoints.length) :
    get_domain_availability net endpoints = (k : ℚ) / (n : ℚ) := by
  have hlen : (endpoints_status net endpoints).length = endpoints.length := by
    rw [endpoints_status]
    exact List.length_map _ _
  rw [get_domain_availability, bool_sum_eq_count, hlen, hk, hn]

/-- Witness for C2 at a concrete input: one Up endpoint of two gives 1/2. -/
theorem claim_C2_availability_is_up_fraction_witness :
    ([(⟨"a", ⟨"http://a.com/x", "GET", none, none⟩⟩ : Endpoint),
      ⟨"b", ⟨"http://a.com/y", "GET", none, none⟩⟩] ≠ ([] : List Endpoint)) ∧
    get_domain_availability
      (fun p => if p.url = "http://a.com/x" then ProbeOutcome.response 200 else ProbeOutcome.response 500)
      [⟨"a", ⟨"http://a.com/x", "GET", none, none⟩⟩,
       ⟨"b", ⟨"http://a.com/y", "GET", none, none⟩⟩] = ((1 : ℕ) : ℚ) / ((2 : ℕ) : ℚ) :=
  ⟨by decide,
   claim_C2_availability_is_up_fraction
     (fun p => if p.url = "http://a.com/x" then ProbeOutcome.response 200 else ProbeOutcome.response 500)
     [⟨"a", ⟨"http://a.com/x", "GET", none, none⟩⟩,
      ⟨"b", ⟨"http://a.com/y", "GET", none, none⟩⟩] 1 2 (by decide) (by decide) (by decide)⟩

/-- C9: under the precondition that the endpoint list is non-empty, the
divisor `len(endpoints_status)` is non-zero and the division is a genuine
division (it multiplies back); with no endpoints the divisor is zero, as
the code has no guard. -/
theorem claim_C9_division_safe (net : Network) (endpoints : List Endpoint) :
    (endpoints ≠ [] →
      ((endpoints_status net endpoints).length : ℚ) ≠ 0 ∧
      get_domain_availability net endpoints * ((endpoints_status net endpoints).length : ℚ) =
        (bool_sum (endpoints_status net endpoints) : ℚ)) ∧
    (endpoints = [] → (endpoints_status net endpoints).length = 0) := by
  constructor
  · intro hne
    have hlen : (endpoints_status net endpoints).length = endpoints.length := by
      rw [endpoints_status]
      exact List.length_map _ _
    have hpos : 0 < endpoints.length := List.length_pos.mpr hne
    have hne0 : ((endpoints_status net endpoints).length : ℚ) ≠ 0 := by
      rw [hlen]
      exact_mod_cast Nat.pos_iff_ne_zero.mp hpos
    refine ⟨hne0, ?_⟩
    rw [get_domain_availability]
    exact div_mul_cancel₀ _ hne0
  · intro h
    rw [h, endpoints_status, List.map_nil, List.length_nil]

/-- Witness for C9 at a concrete input: with one endpoint the divisor is
one and the product identity holds. -/
theorem claim_C9_division_safe_witness :
    (([(⟨"a", ⟨"http://a.com/", "GET", none, none⟩⟩ : Endpoint)] ≠ ([] : List Endpoint)) →
      ((endpoints_status (fun _ => ProbeOutcome.timeout)
          [⟨"a", ⟨"http://a.com/", "GET", none, none⟩⟩]).length : ℚ) ≠ 0 ∧
      get_domain_availability (fun _ => ProbeOutcome.timeout)
          [⟨"a", ⟨"http://a.com/", "GET", none, none⟩⟩] *
        ((endpoints_status (fun _ => ProbeOutcome.timeout)
          [⟨"a", ⟨"http://a.com/", "GET", none, none⟩⟩]).length : ℚ) =
        (bool_sum (endpoints_status (fun _ => ProbeOutcome.timeout)
          [⟨"a", ⟨"http://a.com/", "GET", none, none⟩⟩]) : ℚ)) :=
  (claim_C9_division_safe (fun _ => ProbeOutcome.timeout)
    [⟨"a", ⟨"http://a.com/", "GET", none, none⟩⟩]).1

theorem dict_find_dd_append (k : String) (v : Endpoint) :
    ∀ (m : List (String × List Endpoint)) (d : String),
    dict_find (dd_append m k v) d =
      dict_find m d ++ (if d = k then [v] else []) := by
  intro m
  induction m with
  | nil =>
    intro d
    simp only [dd_append, dict_find, List.nil_append]
    by_cases hd : d = k
    · rw [if_pos hd.symm, if_pos hd]
    · rw [if_neg (fun h => hd h.symm), if_neg hd]
  | cons p rest ih =>
    intro d
    obtain ⟨k', vs⟩ := p
    by_cases hk : k' = k
    · simp only [dd_append, if_pos hk, dict_find]
      by_cases hd : k' = d
      · rw [if_pos hd, if_pos hd, if_pos (hd.symm.trans hk)]
      · rw [if_neg hd, if_neg hd, if_neg (fun h : d = k => hd (hk.trans h.symm)),
          List.append_nil]
    · simp only [dd_append, if_neg hk, dict_find]
      by_cases hd : k' = d
      · rw [if_pos hd, if_pos hd, if_neg (fun h : d = k => hk (hd.trans h)),
          List.append_nil]
      · rw [if_neg hd, if_neg hd, ih d]

theorem keys_dd_append (k : String) (v : Endpoint) :
    ∀ (m : List (String × List Endpoint)),
    (dd_append m k v).map Prod.fst =
      if k ∈ m.map Prod.fst then m.map Prod.fst else m.map Prod.fst ++ [k] := by
  intro m
  induction m with
  | nil => simp [dd_append]
  | cons p rest ih =>
    obtain ⟨k', vs⟩ := p
    by_cases hk : k' = k
    · have hmem : k ∈ List.map Prod.fst ((k', vs) :: rest) := by
        simp only [List.map_cons, List.mem_cons]
        exact Or.inl hk.symm
      rw [dd_append, if_pos hk, if_pos hmem]
      simp only [List.map_cons]
    · rw [dd_append, if_neg hk]
      simp only [List.map_cons, List.mem_cons]
      have hne : ¬k = k' := fun h => hk h.symm
      by_cases hin : k ∈ rest.map Prod.fst
      · rw [if_pos (Or.inr hin), ih, if_pos hin]
      · rw [if_neg (not_or.mpr ⟨hne, hin⟩), ih, if_neg hin, List.cons_append]

theorem first_seen_hosts_spec_congr (hs : List String) :
    ∀ s₁ s₂, (∀ x, x ∈ s₁ ↔ x ∈ s₂) →
    first_seen_hosts_spec s₁ hs = first_seen_hosts_spec s₂ hs := by
  induction hs with
  | nil => intro _ _ _; rfl
  | cons h hs ih =>
    intro s₁ s₂ hmem
    rw [first_seen_hosts_spec, first_seen_hosts_spec]
    by_cases hh : h ∈ s₁
    · rw [if_pos hh, if_pos ((hmem h).mp hh)]
      exact ih s₁ s₂ hmem
    · rw [if_neg hh, if_neg (fun c => hh ((hmem h).mpr c))]
      rw [ih (h :: s₁) (h :: s₂) (fun x => by simp [hmem x])]

theorem first_seen_hosts_spec_nodup (hs : List String) :
    ∀ seen, (first_seen_hosts_spec seen hs).Nodup ∧
      ∀ x ∈ first_seen_hosts_spec seen hs, x ∉ seen := by
  induction hs with
  | nil =>
    intro seen
    exact ⟨List.nodup_nil, by intro x hx; simp [first_seen_hosts_spec] at hx⟩
  | cons h hs ih =>
    intro seen
    rw [first_seen_hosts_spec]
    by_cases hh : h ∈ seen
    · rw [if_pos hh]; exact ih seen
    · rw [if_neg hh]
      obtain ⟨hnd, hmem⟩ := ih (h :: seen)
      refine ⟨List.nodup_cons.mpr
        ⟨fun hc => (hmem h hc) (List.mem_cons_self h seen), hnd⟩, ?_⟩
      intro x hx
      rcases List.mem_cons.mp hx with rfl | hx'
      · exact hh
      · exact fun hxs => hmem x hx' (List.mem_cons_of_mem h hxs)

theorem parse_config_from_ok (netloc : String → String) (entries : List RawEntry) :
    ∀ (acc : List (String × List Endpoint)),
    (∀ e ∈ entries, e.url ≠ none ∧ e.name ≠ none) →
    ∃ m, parse_config_from netloc acc entries = Except.ok m ∧
      m.map Prod.fst =
        acc.map Prod.fst ++
          first_seen_hosts_spec (acc.map Prod.fst) (entry_hosts_spec netloc entries) ∧
      ∀ d, dict_find m d = dict_find acc d ++ grouped_endpoints_spec netloc entries d := by
  induction entries with
  | nil =>
    intro acc _
    refine ⟨acc, rfl, ?_, ?_⟩
    · simp [entry_hosts_spec, first_seen_hosts_spec]
    · intro d; simp [grouped_endpoints_spec]
  | cons e rest ih =>
    intro acc hwf
    obtain ⟨hu, hn⟩ := hwf e (List.mem_cons_self e rest)
    obtain ⟨u, hu'⟩ := Option.ne_none_iff_exists'.mp hu
    obtain ⟨n, hn'⟩ := Option.ne_none_iff_exists'.mp hn
    obtain ⟨m, hok, hkeys, hfind⟩ :=
      ih (dd_append acc (netloc u) (entry_endpoint u n e))
        (fun e' he' => hwf e' (List.mem_cons_of_mem e he'))
    have hhosts : entry_hosts_spec netloc (e :: rest) =
        netloc u :: entry_hosts_spec netloc rest := by
      simp [entry_hosts_spec, hu']
    refine ⟨m, by simp only [parse_config_from, hu', hn']; exact hok, ?_, ?_⟩
    · rw [hhosts, first_seen_hosts_spec]
      by_cases hk : netloc u ∈ acc.map Prod.fst
      · rw [if_pos hk, hkeys, keys_dd_append, if_pos hk]
      · rw [if_neg hk, hkeys, keys_dd_append, if_neg hk]
        rw [first_seen_hosts_spec_congr (entry_hosts_spec netloc rest)
          (acc.map Prod.fst ++ [netloc u]) (netloc u :: acc.map Prod.fst)
          (fun x => by simp [or_comm])]
        rw [← List.append_cons]
    · intro d
      have hgrp : grouped_endpoints_spec netloc (e :: rest) d =
          (if netloc u = d then [entry_endpoint u n e] else []) ++
            grouped_endpoints_spec netloc rest d := by
        by_cases hd : netloc u = d
        · simp [grouped_endpoints_spec, hu', hn', hd]
        · simp [grouped_endpoints_spec, hu', hn', hd]
      rw [hfind d, dict_find_dd_append, hgrp]
      by_cases hd : d = netloc u
      · rw [if_pos hd, if_pos hd.symm, List.append_assoc]
      · rw [if_neg hd, if_neg (fun h => hd h.symm), List.append_nil, List.nil_append]

/-- C7: parsing a well-formed configuration groups entries by URL host:
each host occurs as exactly one domain key, domains appear in first-seen
order, and each domain's endpoint list is exactly the endpoints of the
entries with that host, in original configuration order. -/
theorem claim_C7_config_grouping (netloc : String → String) (entries : List RawEntry)
    (hwf : ∀ e ∈ entries, e.url ≠ none ∧ e.name ≠ none) :
    ∃ m, parse_config netloc entries = Except.ok m ∧
      (m.map Prod.fst).Nodup ∧
      m.map Prod.fst = first_seen_hosts_spec [] (entry_hosts_spec netloc entries) ∧
      ∀ d, dict_find m d = grouped_endpoints_spec netloc entries d := by
  obtain ⟨m, hok, hkeys, hfind⟩ := parse_config_from_ok netloc entries [] hwf
  simp only [List.map_nil, List.nil_append] at hkeys
  refine ⟨m, hok, ?_, hkeys, ?_⟩
  · rw [hkeys]
    exact (first_seen_hosts_spec_nodup (entry_hosts_spec netloc entries) []).1
  · intro d
    have := hfind d
    rwa [dict_find, List.nil_append] at this

/-- Witness for C7 at a concrete input: two entries whose URLs share host
"a.com" are parsed into a single domain entry holding both endpoints in
original order. -/
theorem claim_C7_config_grouping_witness :
    (∀ e ∈ [(⟨some "http://a.com/x", some "a", none, none, none⟩ : RawEntry),
            ⟨some "http://a.com/y", some "b", none, none, none⟩],
      e.url ≠ none ∧ e.name ≠ none) ∧
    ∃ m, parse_config (fun u => if u = "http://a.com/x" ∨ u = "http://a.com/y" then "a.com" else "other")
        [⟨some "http://a.com/x", some "a", none, none, none⟩,
         ⟨some "http://a.com/y", some "b", none, none, none⟩] = Except.ok m ∧
      (m.map Prod.fst).Nodup ∧
      m.map Prod.fst =
        first_seen_hosts_spec []
          (entry_hosts_spec (fun u => if u = "http://a.com/x" ∨ u = "http://a.com/y" then "a.com" else "other")
            [⟨some "http://a.com/x", some "a", none, none, none⟩,
             ⟨some "http://a.com/y", some "b", none, none, none⟩]) ∧
      ∀ d, dict_find m d =
        grouped_endpoints_spec (fun u => if u = "http://a.com/x" ∨ u = "http://a.com/y" then "a.com" else "other")
          [⟨some "http://a.com/x", some "a", none, none, none⟩,
           ⟨some "http://a.com/y", some "b", none, none, none⟩] d :=
  ⟨by decide,
   claim_C7_config_grouping
     (fun u => if u = "http://a.com/x" ∨ u = "http://a.com/y" then "a.com" else "other")
     [⟨some "http://a.com/x", some "a", none, none, none⟩,
      ⟨some "http://a.com/y", some "b", none, none, none⟩] (by decide)⟩

theorem parse_config_from_error (netloc : String → String) (entries : List RawEntry) :
    ∀ (acc : List (String × List Endpoint)),
    (∃ e ∈ entries, e.url = none ∨ e.name = none) →
    ∃ err, parse_config_from netloc acc entries = Except.error err := by
  induction entries with
  | nil =>
    intro acc h
    obtain ⟨e, he, _⟩ := h
    exact absurd he (List.not_mem_nil e)
  | cons e rest ih =>
    intro acc h
    obtain ⟨e', he', hbad⟩ := h
    match hurl : e.url with
    | none => exact ⟨"KeyError: url", by simp [parse_config_from, hurl]⟩
    | some u =>
      match hname : e.name with
      | none => exact ⟨"KeyError: name", by simp [parse_config_from, hurl, hname]⟩
      | some n =>
        have hrest : ∃ e'' ∈ rest, e''.url = none ∨ e''.name = none := by
          rcases List.mem_cons.mp he' with rfl | hm
          · rcases hbad with hx | hx
            · rw [hurl] at hx; exact absurd hx (by simp)
            · rw [hname] at hx; exact absurd hx (by simp)
          · exact ⟨e', hm, hbad⟩
        obtain ⟨err, herr⟩ :=
          ih (dd_append acc (netloc u) (entry_endpoint u n e)) hrest
        exact ⟨err, by simp only [parse_config_from, hurl, hname]; exact herr⟩

/-- C8: when any configuration entry is missing its `url` or its `name`
field, loading logs a `Failed to load config` error and exits with status
1, and `main` never reaches the monitoring loop. -/
theorem claim_C8_missing_field_exits (netloc : String → String)
    (entries : List RawEntry)
    (hbad : ∃ e ∈ entries, e.url = none ∨ e.name = none) :
    ∃ log, load_config netloc entries = LoadResult.exit 1 log ∧
      main_startup netloc entries = StartupResult.exit 1 log := by
  obtain ⟨err, herr⟩ := parse_config_from_error netloc entries [] hbad
  refine ⟨"Failed to load config: " ++ err, ?_, ?_⟩
  · rw [load_config, parse_config, herr]
  · rw [main_startup, load_config, parse_config, herr]

/-- Witness for C8 at a concrete input: an entry with no `url` field makes
startup exit with status 1. -/
theorem claim_C8_missing_field_exits_witness :
    (∃ e ∈ [(⟨none, some "a", none, none, none⟩ : RawEntry)],
      e.url = none ∨ e.name = none) ∧
    ∃ log, load_config (fun _ => "a.com") [⟨none, some "a", none, none, none⟩] =
        LoadResult.exit 1 log ∧
      main_startup (fun _ => "a.com") [⟨none, some "a", none, none, none⟩] =
        StartupResult.exit 1 log :=
  ⟨⟨⟨none, some "a", none, none, none⟩, by decide, by decide⟩,
   claim_C8_missing_field_exits (fun _ => "a.com")
     [⟨none, some "a", none, none, none⟩]
     ⟨⟨none, some "a", none, none, none⟩, by decide, by decide⟩⟩

theorem dict_get_of_mem (k : String) :
    ∀ (m : List (String × ℚ)), k ∈ m.map Prod.fst → ∃ v, dict_get m k = some v := by
  intro m
  induction m with
  | nil => intro h; simp at h
  | cons p rest ih =>
    intro h
    obtain ⟨k', v⟩ := p
    by_cases hp : k' = k
    · exact ⟨v, by rw [dict_get, if_pos hp]⟩
    · have hr : k ∈ rest.map Prod.fst := by
        simp only [List.map_cons, List.mem_cons] at h
        rcases h with h | h
        · exact absurd h.symm hp
        · exact h
      obtain ⟨w, hw⟩ := ih hr
      exact ⟨w, by rw [dict_get, if_neg hp, hw]⟩

theorem keys_dict_assign_of_mem (k : String) (v : ℚ) :
    ∀ (m : List (String × ℚ)), k ∈ m.map Prod.fst →
    (dict_assign m k v).map Prod.fst = m.map Prod.fst := by
  intro m
  induction m with
  | nil => intro h; simp at h
  | cons p rest ih =>
    intro h
    obtain ⟨k', v'⟩ := p
    by_cases hp : k' = k
    · rw [dict_assign, if_pos hp]
      simp only [List.map_cons, hp]
    · have hr : k ∈ rest.map Prod.fst := by
        simp only [List.map_cons, List.mem_cons] at h
        rcases h with h | h
        · exact absurd h.symm hp
        · exact h
      rw [dict_assign, if_neg hp]
      simp only [List.map_cons, ih hr]

theorem apply_updates_ok (c : ℕ) :
    ∀ (zs : List (String × ℚ)) (avgs : List (String × ℚ)),
    (∀ p ∈ zs, p.1 ∈ avgs.map Prod.fst) →
    ∃ m, apply_updates c avgs zs = some m ∧ m.map Prod.fst = avgs.map Prod.fst := by
  intro zs
  induction zs with
  | nil => intro avgs _; exact ⟨avgs, rfl, rfl⟩
  | cons p rest ih =>
    intro avgs hmem
    obtain ⟨d, a⟩ := p
    have hd : d ∈ avgs.map Prod.fst := hmem (d, a) (List.mem_cons_self _ _)
    obtain ⟨prev, hprev⟩ := dict_get_of_mem d avgs hd
    have hkeys := keys_dict_assign_of_mem d (tracker_update prev c a) avgs hd
    obtain ⟨m, hok, hm⟩ := ih (dict_assign avgs d (tracker_update prev c a))
      (fun q hq => by rw [hkeys]; exact hmem q (List.mem_cons_of_mem _ hq))
    refine ⟨m, ?_, by rw [hm, hkeys]⟩
    simp only [apply_updates, hprev]
    exact hok

theorem update_domains_availability_ok (net : Network)
    (avgs : List (String × ℚ)) (cycle : ℕ)
    (monitored : List (String × List Endpoint))
    (hsub : ∀ d ∈ monitored.map Prod.fst, d ∈ avgs.map Prod.fst) :
    ∃ m, update_domains_availability net avgs cycle monitored = some m ∧
      m.map Prod.fst = avgs.map Prod.fst := by
  rw [update_domains_availability]
  exact apply_updates_ok cycle
    ((monitored.map Prod.fst).zip (monitored.map fun p => get_domain_availability net p.2))
    avgs
    (fun p hp => by
      obtain ⟨x, y⟩ := p
      exact hsub x (List.of_mem_zip hp).1)

/-- C10: when every monitored domain has an entry in the averages map, the
per-cycle update pass succeeds (no `KeyError`) and leaves the key set of
the averages map unchanged; at startup that map is seeded with exactly the
keys of the monitored-domains map. -/
theorem claim_C10_domains_invariant (net : Network)
    (avgs : List (String × ℚ)) (cycle : ℕ)
    (monitored : List (String × List Endpoint))
    (hsub : ∀ d ∈ monitored.map Prod.fst, d ∈ avgs.map Prod.fst) :
    (∃ m, update_domains_availability net avgs cycle monitored = some m ∧
      m.map Prod.fst = avgs.map Prod.fst) ∧
    (∀ (netloc : String → String) (entries : List RawEntry) m a c,
      main_startup netloc entries = StartupResult.run m a c →
      a.map Prod.fst = m.map Prod.fst ∧ c = 0) := by
  refine ⟨update_domains_availability_ok net avgs cycle monitored hsub, ?_⟩
  intro netloc entries m a c h
  rw [main_startup] at h
  cases hload : load_config netloc entries with
  | exit c' l => rw [hload] at h; cases h
  | ok mm =>
    rw [hload] at h
    cases h
    constructor
    · simp
    · rfl

/-- Witness for C10 at a concrete input: updating a one-domain state keeps
its key set. -/
theorem claim_C10_domains_invariant_witness :
    (∀ d ∈ ([("a.com", [(⟨"a", ⟨"http://a.com/", "GET", none, none⟩⟩ : Endpoint)])].map
        (Prod.fst (α := String) (β := List Endpoint))),
      d ∈ ([(("a.com" : String), (0 : ℚ))].map Prod.fst)) ∧
    (∃ m, update_domains_availability (fun _ => ProbeOutcome.timeout)
        [("a.com", 0)] 1 [("a.com", [⟨"a", ⟨"http://a.com/", "GET", none, none⟩⟩])] = some m ∧
      m.map Prod.fst = [(("a.com" : String), (0 : ℚ))].map Prod.fst) :=
  ⟨by decide,
   (claim_C10_domains_invariant (fun _ => ProbeOutcome.timeout) [("a.com", 0)] 1
     [("a.com", [⟨"a", ⟨"http://a.com/", "GET", none, none⟩⟩])] (by decide)).1⟩

/-- C6: a loop iteration with elapsed probing+update time `t` sleeps for
exactly `max(0, REFRESH_PERIOD - t)`: zero when `t ≥ REFRESH_PERIOD`
(the next cycle starts immediately, with no failure) and the exact
remainder of the period otherwise, and the sleep is never negative. -/
theorem claim_C6_sleep_compensation (net : Network)
    (monitored : List (String × List Endpoint)) (avgs : List (String × ℚ))
    (cycle : ℕ) (t : ℚ)
    (hsub : ∀ d ∈ monitored.map Prod.fst, d ∈ avgs.map Prod.fst) :
    ∃ avgs' s, main_cycle net monitored avgs cycle t = some (avgs', cycle + 1, s) ∧
      s = max 0 (REFRESH_PERIOD - t) ∧ 0 ≤ s ∧
      (REFRESH_PERIOD ≤ t → s = 0) ∧ (t ≤ REFRESH_PERIOD → s = REFRESH_PERIOD - t) := by
  obtain ⟨m, hok, _⟩ :=
    update_domains_availability_ok net avgs (cycle + 1) monitored hsub
  refine ⟨m, max 0 (REFRESH_PERIOD - t), ?_, rfl, le_max_left _ _, ?_, ?_⟩
  · rw [main_cycle, hok]
  · intro ht
    exact max_eq_left (by linarith)
  · intro ht
    exact max_eq_right (by linarith)

/-- Witness for C6 at a concrete input: with elapsed time 20 > 15 the
sleep is zero and the cycle counter advances. -/
theorem claim_C6_sleep_compensation_witness :
    (∀ d ∈ ([("a.com", [(⟨"a", ⟨"http://a.com/", "GET", none, none⟩⟩ : Endpoint)])].map
        (Prod.fst (α := String) (β := List Endpoint))),
      d ∈ ([(("a.com" : String), (0 : ℚ))].map Prod.fst)) ∧
    ∃ avgs' s, main_cycle (fun _ => ProbeOutcome.timeout)
        [("a.com", [⟨"a", ⟨"http://a.com/", "GET", none, none⟩⟩])]
        [("a.com", 0)] 0 20 = some (avgs', 0 + 1, s) ∧
      s = max 0 (REFRESH_PERIOD - 20) ∧ 0 ≤ s ∧
      (REFRESH_PERIOD ≤ 20 → s = 0) ∧ (20 ≤ REFRESH_PERIOD → s = REFRESH_PERIOD - 20) :=
  ⟨by decide,
   claim_C6_sleep_compensation (fun _ => ProbeOutcome.timeout)
     [("a.com", [⟨"a", ⟨"http://a.com/", "GET", none, none⟩⟩])]
     [("a.com", 0)] 0 20 (by decide)⟩

end HealthCheck
